import Mathlib

/-
Verification of the path recorder and bounded replay compositor of the
`raster` Go package. Machine floating-point coordinates (float64, and the
float32 narrowing performed at the scan-converter boundary) are embedded
as exact rationals: every claim under study concerns comparisons,
min/max bookkeeping and structural replay, for which the ordered field ℚ
is a faithful model of the ordered float values the code manipulates.
Go's `int(...)` conversion of a float truncates toward zero, embedded
below as `trunc`.
-/

namespace Raster

/-- Operator tags for recorded segments, from the source's
`Operator` constants: `bogus` is the zero-value sentinel. -/
inductive Operator
  | bogus
  | moveto
  | lineto
  | cubeto
deriving DecidableEq, Repr

/-- Segment is a single recorded drawing command (source type `Segment`):
an operator tag plus its flat list of coordinate arguments. -/
structure Segment where
  Op : Operator
  Args : List ℚ
deriving DecidableEq, Repr

/-- Entry captures the signature of a series of segments (source type
`Entry`): a closed flag, the ordered path of segments, and the
incrementally maintained bounding box. Field defaults are Go's zero
values. -/
structure Entry where
  Closed : Bool := false
  Path : List Segment := []
  MinX : ℚ := 0
  MaxX : ℚ := 0
  MinY : ℚ := 0
  MaxY : ℚ := 0
deriving DecidableEq, Repr

/-- Modelled from the spec: one command forwarded to the external
scan-converter (`golang.org/x/image/vector.Rasterizer`), which accepts
move/line/cube/close commands in floating-point device pixel space. -/
inductive VCmd
  | vmove (x y : ℚ)
  | vline (x y : ℚ)
  | vcube (a b c d e f : ℚ)
  | vclose
deriving DecidableEq, Repr

/-- Modelled from the spec: the external scan-converter boundary
(spec §6). It is an opaque deterministic service characterised by its
fixed pixel dimensions and the trace of commands forwarded to it; the
per-pixel coverage it produces is outside the core and determined by
this data. -/
structure VectorRasterizer where
  width : ℤ
  height : ℤ
  cmds : List VCmd
deriving DecidableEq, Repr

/-- Rasterizer is the recorder (source type `Rasterizer`): an optional
immediate scan-converter `R` (Go: a possibly-nil pointer) and the
recorded entries. -/
structure Rasterizer where
  R : Option VectorRasterizer
  Entries : List Entry
deriving DecidableEq, Repr

/-- NewRasterizer allocates a new rasterizer with a fixed size
(immediate mode: the wrapped converter is present). -/
def NewRasterizer (w h : ℤ) : Rasterizer :=
  { R := some { width := w, height := h, cmds := [] }, Entries := [] }

/-- Reset resets the wrapped scan-converter, from the source's
`(*Rasterizer).Reset`: it calls `r.R.Reset(w, h)` and nothing else.
When `R` is absent (buffered mode) the Go code dereferences a nil
pointer, modelled as `none`; the recorded entries are never touched. -/
def Rasterizer.Reset (r : Rasterizer) (w h : ℤ) : Option Rasterizer :=
  match r.R with
  | some _ => some { r with R := some { width := w, height := h, cmds := [] } }
  | none => none

/-- One iteration of the x-axis half of `extend`'s merge loop:
`if a := args[i]; a < e.MinX { e.MinX = a } else if a > e.MaxX { e.MaxX = a }`. -/
def mergeX (en : Entry) (a : ℚ) : Entry :=
  if a < en.MinX then { en with MinX := a }
  else if a > en.MaxX then { en with MaxX := a }
  else en

/-- One iteration of the y-axis half of `extend`'s merge loop:
`if a := args[i+1]; a < e.MinY { e.MinY = a } else if a > e.MaxY { e.MaxY = a }`. -/
def mergeY (en : Entry) (a : ℚ) : Entry :=
  if a < en.MinY then { en with MinY := a }
  else if a > en.MaxY then { en with MaxY := a }
  else en

/-- The merge loop of `extend`: `for ; i < len(args); i += 2` folding
consecutive (x, y) argument pairs into the bounding box. Every call
site passes an even number of arguments, so the trailing-singleton
case is unreachable. -/
def mergeLoop (en : Entry) : List ℚ → Entry
  | a :: b :: rest => mergeLoop (mergeY (mergeX en a) b) rest
  | _ => en

/-- The consecutive (x, y) pairs of a flat argument list, as walked by
`extend`'s loop. -/
def listPairs : List ℚ → List (ℚ × ℚ)
  | a :: b :: rest => (a, b) :: listPairs rest
  | _ => []

/-- The test `n < 0 || r.Entries[n].Closed` of `extend`, with
`n = len(r.Entries) - 1`: true when there is no entry yet or the most
recent entry is closed. -/
def lastClosed (es : List Entry) : Bool :=
  match es.getLast? with
  | none => true
  | some en => en.Closed

/-- Replace the last element of a list, modelling the in-place update
`r.Entries[n] = ...` at index `n = len(r.Entries) - 1`. -/
def updateLast (f : Entry → Entry) : List Entry → List Entry
  | [] => []
  | [en] => [f en]
  | en :: e2 :: rest => en :: updateLast f (e2 :: rest)

/-- The source's `(*Rasterizer).extend`. With an immediate converter
present it returns at once. Otherwise, when there is no open entry, a
new entry is seeded with the first coordinate pair (`i += 2`) and the
remaining pairs are merged; when the last entry is open all pairs are
merged into it (`i` stays 0). Finally the segment is appended to the
entry's path. Every Go call site passes at least one coordinate pair,
written here as explicit leading arguments `a0 a1`. -/
def Rasterizer.extend (r : Rasterizer) (op : Operator) (a0 a1 : ℚ) (rest : List ℚ) : Rasterizer :=
  match r.R with
  | some _ => r
  | none =>
    if lastClosed r.Entries then
      let e0 : Entry := { Closed := false, Path := [], MinX := a0, MaxX := a0, MinY := a1, MaxY := a1 }
      let e1 := mergeLoop e0 rest
      { r with Entries := r.Entries ++ [{ e1 with Path := e1.Path ++ [{ Op := op, Args := a0 :: a1 :: rest }] }] }
    else
      { r with Entries := updateLast (fun en =>
          let em := mergeLoop en (a0 :: a1 :: rest)
          { em with Path := em.Path ++ [{ Op := op, Args := a0 :: a1 :: rest }] }) r.Entries }

/-- MoveTo sets the rasterizer pen to the coordinate (x, y): `extend`
bookkeeping, then forwarding to the immediate converter when present. -/
def Rasterizer.MoveTo (r : Rasterizer) (x y : ℚ) : Rasterizer :=
  let r1 := r.extend .moveto x y []
  match r1.R with
  | some v => { r1 with R := some { v with cmds := v.cmds ++ [.vmove x y] } }
  | none => r1

/-- LineTo constructs a straight line to (x, y): `extend` bookkeeping,
then forwarding to the immediate converter when present. -/
def Rasterizer.LineTo (r : Rasterizer) (x y : ℚ) : Rasterizer :=
  let r1 := r.extend .lineto x y []
  match r1.R with
  | some v => { r1 with R := some { v with cmds := v.cmds ++ [.vline x y] } }
  | none => r1

/-- CubeTo constructs a cubic Bezier curve from the supplied control
and end points: `extend` bookkeeping, then forwarding to the immediate
converter when present. -/
def Rasterizer.CubeTo (r : Rasterizer) (a b c d e f : ℚ) : Rasterizer :=
  let r1 := r.extend .cubeto a b [c, d, e, f]
  match r1.R with
  | some v => { r1 with R := some { v with cmds := v.cmds ++ [.vcube a b c d e f] } }
  | none => r1

/-- ClosePath, from the source: forwards when an immediate converter is
present; otherwise executes `r.Entries[len(r.Entries)-1].Closed = true`,
which panics (modelled as `none`) when the entries slice is empty. -/
def Rasterizer.ClosePath (r : Rasterizer) : Option Rasterizer :=
  match r.R with
  | some v => some { r with R := some { v with cmds := v.cmds ++ [.vclose] } }
  | none =>
    match r.Entries with
    | [] => none
    | _ :: _ => some { r with Entries := updateLast (fun en => { en with Closed := true }) r.Entries }

/-- Go's `int(...)` conversion of a floating-point value: truncation
toward zero. -/
def trunc (q : ℚ) : ℤ := if q < 0 then q.ceil else q.floor

/-- A color token for the uniform fill color passed through to each
composite; the replay never inspects it. -/
abbrev Color := ℤ

/-- Modelled from the spec: one compositing step produced by `Render`
for one closed entry — the dimensions of the freshly allocated local
scan-converter, the trace of commands replayed into it, the integer
destination offset, and the fill color. The external converter being
deterministic (spec §6), this data determines the pixels composited. -/
structure Draw where
  wide : ℤ
  high : ℤ
  cmds : List VCmd
  ix : ℤ
  iy : ℤ
  col : Color
deriving DecidableEq, Repr

/-- The local-coordinate maps `toX`/`toY` of `Render`:
`1 + coordinate - box minimum`. -/
def toLocal (mn v : ℚ) : ℚ := 1 + v - mn

/-- Replay of one segment inside `Render`'s loop: the argument-count
check `(p.Op == cubeto && len(a) != 6) || (p.Op != cubeto && len(a) != 2)`
panics, then the switch dispatches on the operator, panicking on the
`bogus` default. Panics are modelled as `Except.error`. -/
def replaySeg (mX mY : ℚ) (p : Segment) : Except String VCmd :=
  let a := p.Args
  if (p.Op = .cubeto ∧ a.length ≠ 6) ∨ (p.Op ≠ .cubeto ∧ a.length ≠ 2) then
    Except.error "invalid arg count"
  else
    match p.Op with
    | .moveto => Except.ok (.vmove (toLocal mX (a.getD 0 0)) (toLocal mY (a.getD 1 0)))
    | .lineto => Except.ok (.vline (toLocal mX (a.getD 0 0)) (toLocal mY (a.getD 1 0)))
    | .cubeto => Except.ok (.vcube (toLocal mX (a.getD 0 0)) (toLocal mY (a.getD 1 0))
        (toLocal mX (a.getD 2 0)) (toLocal mY (a.getD 3 0))
        (toLocal mX (a.getD 4 0)) (toLocal mY (a.getD 5 0)))
    | .bogus => Except.error "unsupported Op"

/-- Replay of an entry's whole path in original order, aborting at the
first contract violation. -/
def replayPath (mX mY : ℚ) : List Segment → Except String (List VCmd)
  | [] => Except.ok []
  | p :: ps =>
    match replaySeg mX mY p with
    | Except.error m => Except.error m
    | Except.ok c =>
      match replayPath mX mY ps with
      | Except.error m => Except.error m
      | Except.ok cs => Except.ok (c :: cs)

/-- One iteration of `Render`'s entry loop: the local converter is
sized `wide = int(2 + MaxX - MinX)`, `high = int(2 + MaxY - MinY)`;
unclosed entries are skipped (`ok none`); otherwise the path is
replayed in local coordinates, the local path force-closed, and the
draw composited at `(int(x + MinX - 1), int(y + MinY - 1))`. -/
def renderEntry (x y : ℚ) (col : Color) (en : Entry) : Except String (Option Draw) :=
  let wide := trunc (2 + en.MaxX - en.MinX)
  let high := trunc (2 + en.MaxY - en.MinY)
  if en.Closed = true then
    match replayPath en.MinX en.MinY en.Path with
    | Except.error m => Except.error m
    | Except.ok cs =>
      Except.ok (some { wide := wide, high := high, cmds := cs ++ [.vclose],
                        ix := trunc (x + en.MinX - 1), iy := trunc (y + en.MinY - 1),
                        col := col })
  else
    Except.ok none

/-- `Render`'s loop over the recorded entries, in order: the draws
composited so far, and the panic message if the replay aborted (in
which case no later entry contributes a draw). -/
def renderList (x y : ℚ) (col : Color) : List Entry → List Draw × Option String
  | [] => ([], none)
  | en :: es =>
    match renderEntry x y col en with
    | Except.error m => ([], some m)
    | Except.ok none => renderList x y col es
    | Except.ok (some d) =>
      let rest := renderList x y col es
      (d :: rest.1, rest.2)

/-- Render places the entries of r into the destination at (x, y)
offset, from the source's `(*Rasterizer).Render`. -/
def Rasterizer.Render (r : Rasterizer) (x y : ℚ) (col : Color) : List Draw × Option String :=
  renderList x y col r.Entries

/-- Modelled from the spec: the destination image is a write-only
surface receiving source-over composites (spec §6); it is represented
by the history of draws composited onto it, which, the external
converter being deterministic, determines its pixels. -/
abbrev Image := List Draw

/-- Rendering a recorder onto a destination image: the entry draws are
composited onto the image in order; an aborted replay leaves the draws
already made. -/
def renderOnto (im : Image) (r : Rasterizer) (x y : ℚ) (col : Color) : Image × Option String :=
  let res := r.Render x y col
  (im ++ res.1, res.2)

example :
    (Rasterizer.MoveTo { R := none, Entries := [] } 1 2).Entries =
      [{ Closed := false, Path := [{ Op := .moveto, Args := [1, 2] }],
         MinX := 1, MaxX := 1, MinY := 2, MaxY := 2 }] := by
  decide

example :
    ((Rasterizer.CubeTo { R := none, Entries := [] } 3 4 (-1) 7 2 0).Entries.map Entry.MinX) = [-1] := by
  decide

theorem mergeX_MinY (en : Entry) (a : ℚ) : (mergeX en a).MinY = en.MinY := by
  unfold mergeX; split_ifs <;> rfl

theorem mergeX_MaxY (en : Entry) (a : ℚ) : (mergeX en a).MaxY = en.MaxY := by
  unfold mergeX; split_ifs <;> rfl

theorem mergeX_Path (en : Entry) (a : ℚ) : (mergeX en a).Path = en.Path := by
  unfold mergeX; split_ifs <;> rfl

theorem mergeX_Closed (en : Entry) (a : ℚ) : (mergeX en a).Closed = en.Closed := by
  unfold mergeX; split_ifs <;> rfl

theorem mergeY_MinX (en : Entry) (a : ℚ) : (mergeY en a).MinX = en.MinX := by
  unfold mergeY; split_ifs <;> rfl

theorem mergeY_MaxX (en : Entry) (a : ℚ) : (mergeY en a).MaxX = en.MaxX := by
  unfold mergeY; split_ifs <;> rfl

theorem mergeY_Path (en : Entry) (a : ℚ) : (mergeY en a).Path = en.Path := by
  unfold mergeY; split_ifs <;> rfl

theorem mergeY_Closed (en : Entry) (a : ℚ) : (mergeY en a).Closed = en.Closed := by
  unfold mergeY; split_ifs <;> rfl

theorem mergeLoop_Path : ∀ (args : List ℚ) (en : Entry), (mergeLoop en args).Path = en.Path
  | [], _ => rfl
  | [_], _ => rfl
  | a :: b :: rest, en => by
    rw [show mergeLoop en (a :: b :: rest) = mergeLoop (mergeY (mergeX en a) b) rest from rfl,
      mergeLoop_Path rest, mergeY_Path, mergeX_Path]

theorem mergeLoop_Closed : ∀ (args : List ℚ) (en : Entry), (mergeLoop en args).Closed = en.Closed
  | [], _ => rfl
  | [_], _ => rfl
  | a :: b :: rest, en => by
    rw [show mergeLoop en (a :: b :: rest) = mergeLoop (mergeY (mergeX en a) b) rest from rfl,
      mergeLoop_Closed rest, mergeY_Closed, mergeX_Closed]

theorem updateLast_concat (f : Entry → Entry) :
    ∀ (es : List Entry) (en : Entry), updateLast f (es ++ [en]) = es ++ [f en]
  | [], _ => rfl
  | e1 :: es, en => by
    have ih := updateLast_concat f es en
    cases es with
    | nil => rfl
    | cons e2 rest =>
      show updateLast f (e1 :: e2 :: (rest ++ [en])) = e1 :: ((e2 :: rest) ++ [f en])
      rw [show updateLast f (e1 :: e2 :: (rest ++ [en])) =
          e1 :: updateLast f (e2 :: (rest ++ [en])) from rfl]
      exact congrArg (e1 :: ·) ih

/-- C6: with an immediate scan-converter present, each of MoveTo,
LineTo, CubeTo and ClosePath leaves the recorded Entries sequence
unchanged — the `extend` bookkeeping is a no-op in immediate mode. -/
theorem immediate_mode_entries_unchanged (r : Rasterizer) (v : VectorRasterizer)
    (hR : r.R = some v) (x y a b c d e f : ℚ) :
    (r.MoveTo x y).Entries = r.Entries ∧
    (r.LineTo x y).Entries = r.Entries ∧
    (r.CubeTo a b c d e f).Entries = r.Entries ∧
    (r.ClosePath).map Rasterizer.Entries = some r.Entries := by
  refine ⟨?_, ?_, ?_, ?_⟩ <;>
    simp [Rasterizer.MoveTo, Rasterizer.LineTo, Rasterizer.CubeTo, Rasterizer.ClosePath,
      Rasterizer.extend, hR]

theorem immediate_mode_entries_unchanged_witness :
    (NewRasterizer 4 4).R = some { width := 4, height := 4, cmds := [] } ∧
    ((NewRasterizer 4 4).MoveTo 1 2).Entries = (NewRasterizer 4 4).Entries ∧
    ((NewRasterizer 4 4).LineTo 1 2).Entries = (NewRasterizer 4 4).Entries ∧
    ((NewRasterizer 4 4).CubeTo 1 2 3 4 5 6).Entries = (NewRasterizer 4 4).Entries ∧
    ((NewRasterizer 4 4).ClosePath).map Rasterizer.Entries = some (NewRasterizer 4 4).Entries :=
  ⟨rfl, immediate_mode_entries_unchanged (NewRasterizer 4 4) _ rfl 1 2 1 2 3 4 5 6⟩

/-- C3: evaluation of `Reset` at a failing input. On a buffered
recorder holding one recorded entry, `Reset` dereferences the nil
converter (modelled `none`) instead of discarding the entries, and on
an immediate-mode recorder it reinitializes the converter while
leaving the entries untouched — the claim that `Reset` leaves the
Entries sequence empty fails. -/
theorem reset_does_not_discard_entries :
    Rasterizer.Reset (Rasterizer.MoveTo { R := none, Entries := [] } 1 2) 5 5 = none ∧
    (Rasterizer.MoveTo { R := none, Entries := [] } 1 2).Entries ≠ [] ∧
    (Rasterizer.Reset { R := some { width := 3, height := 3, cmds := [] },
                        Entries := [{ Closed := true, Path := [],
                                      MinX := 0, MaxX := 0, MinY := 0, MaxY := 0 }] }
        5 5).map Rasterizer.Entries =
      some [{ Closed := true, Path := [], MinX := 0, MaxX := 0, MinY := 0, MaxY := 0 }] := by
  decide

/-- C9: replaying the same finished recorder onto two identical blank
canvases produces identical results; replay consumes the recorded
entries read-only (the replay is a pure function of the recorder
value), so both runs replay exactly the same segments. -/
theorem render_roundtrip_deterministic (r : Rasterizer) (x y : ℚ) (col : Color)
    (im1 im2 : Image) (h : im1 = im2) :
    renderOnto im1 r x y col = renderOnto im2 r x y col := by
  rw [h]

theorem render_roundtrip_deterministic_witness :
    ([] : Image) = ([] : Image) ∧
    renderOnto []
        { R := none,
          Entries := [{ Closed := true, Path := [{ Op := .lineto, Args := [1, 2] }],
                        MinX := 1, MaxX := 1, MinY := 2, MaxY := 2 }] } 0 0 7 =
      renderOnto []
        { R := none,
          Entries := [{ Closed := true, Path := [{ Op := .lineto, Args := [1, 2] }],
                        MinX := 1, MaxX := 1, MinY := 2, MaxY := 2 }] } 0 0 7 :=
  ⟨rfl, render_roundtrip_deterministic _ 0 0 7 [] [] rfl⟩

/-- A segment whose replay is a contract violation in `Render`: the
sentinel operator, or an argument count off the 2-for-move/line,
6-for-cube rule. -/
def badSeg (p : Segment) : Prop :=
  (p.Op = .cubeto ∧ p.Args.length ≠ 6) ∨ (p.Op ≠ .cubeto ∧ p.Args.length ≠ 2) ∨ p.Op = .bogus

theorem replaySeg_bad (mX mY : ℚ) (p : Segment) (h : badSeg p) :
    ∃ m, replaySeg mX mY p = Except.error m := by
  by_cases hg : (p.Op = .cubeto ∧ p.Args.length ≠ 6) ∨ (p.Op ≠ .cubeto ∧ p.Args.length ≠ 2)
  · exact ⟨"invalid arg count", by simp [replaySeg, hg]⟩
  · have h3 : p.Op = .bogus := by
      rcases h with h1 | h2 | h3
      · exact absurd (Or.inl h1) hg
      · exact absurd (Or.inr h2) hg
      · exact h3
    have hne : p.Op ≠ .cubeto := by rw [h3]; intro hx; cases hx
    have hlen : p.Args.length = 2 := by
      by_contra hl
      exact hg (Or.inr ⟨hne, hl⟩)
    exact ⟨"unsupported Op", by simp [replaySeg, h3, hlen]⟩

theorem replayPath_bad (mX mY : ℚ) :
    ∀ (ps : List Segment), (∃ p ∈ ps, badSeg p) → ∃ m, replayPath mX mY ps = Except.error m
  | [], h => absurd h (by simp)
  | p :: ps, h => by
    rcases h with ⟨q, hq, hbad⟩
    rcases List.mem_cons.mp hq with rfl | hq2
    · obtain ⟨m, hm⟩ := replaySeg_bad mX mY q hbad
      exact ⟨m, by simp [replayPath, hm]⟩
    · cases hs : replaySeg mX mY p with
      | error m => exact ⟨m, by simp [replayPath, hs]⟩
      | ok c =>
        obtain ⟨m, hm⟩ := replayPath_bad mX mY ps ⟨q, hq2, hbad⟩
        exact ⟨m, by simp [replayPath, hs, hm]⟩

theorem renderEntry_unclosed (x y : ℚ) (col : Color) (en : Entry) (hc : en.Closed = false) :
    renderEntry x y col en = Except.ok none := by
  simp [renderEntry, hc]

theorem renderEntry_bad (x y : ℚ) (col : Color) (en : Entry) (hc : en.Closed = true)
    (hb : ∃ p ∈ en.Path, badSeg p) : ∃ m, renderEntry x y col en = Except.error m := by
  obtain ⟨m, hm⟩ := replayPath_bad en.MinX en.MinY en.Path hb
  exact ⟨m, by simp [renderEntry, hc, hm]⟩

theorem renderList_skip_unclosed (x y : ℚ) (col : Color) (en : Entry) (hc : en.Closed = false) :
    ∀ (pre post : List Entry),
      renderList x y col (pre ++ en :: post) = renderList x y col (pre ++ post)
  | [], post => by simp [renderList, renderEntry_unclosed x y col en hc]
  | p :: pre, post => by
    have ih := renderList_skip_unclosed x y col en hc pre post
    cases hs : renderEntry x y col p with
    | error m => simp [renderList, hs]
    | ok o =>
      cases o with
      | none => simpa [renderList, hs] using ih
      | some d => simp [renderList, hs, ih]

/-- C4: an entry whose Closed flag is false is skipped entirely by
`Render`: removing it from the entry sequence leaves the replay's
composited draws and its error outcome unchanged, regardless of what
segments the entry contains. -/
theorem render_skips_unclosed (r : Rasterizer) (pre post : List Entry) (en : Entry)
    (hE : r.Entries = pre ++ en :: post) (hc : en.Closed = false) (x y : ℚ) (col : Color) :
    r.Render x y col = Rasterizer.Render { r with Entries := pre ++ post } x y col := by
  unfold Rasterizer.Render
  rw [hE]
  exact renderList_skip_unclosed x y col en hc pre post

/-- Sample entries used by the witnesses below. -/
def sampleClosed : Entry :=
  { Closed := true, Path := [{ Op := .lineto, Args := [1, 2] }],
    MinX := 1, MaxX := 1, MinY := 2, MaxY := 2 }

def sampleOpen : Entry :=
  { Closed := false, Path := [{ Op := .bogus, Args := [] }, { Op := .lineto, Args := [3] }],
    MinX := 0, MaxX := 0, MinY := 0, MaxY := 0 }

def sampleBad : Entry :=
  { Closed := true, Path := [{ Op := .bogus, Args := [1, 2] }],
    MinX := 0, MaxX := 0, MinY := 0, MaxY := 0 }

theorem render_skips_unclosed_witness :
    ({ R := none, Entries := [sampleClosed, sampleOpen] } : Rasterizer).Entries =
        [sampleClosed] ++ sampleOpen :: [] ∧
    sampleOpen.Closed = false ∧
    Rasterizer.Render { R := none, Entries := [sampleClosed, sampleOpen] } 0 0 7 =
      Rasterizer.Render { R := none, Entries := [sampleClosed] ++ [] } 0 0 7 :=
  ⟨rfl, rfl,
    render_skips_unclosed { R := none, Entries := [sampleClosed, sampleOpen] }
      [sampleClosed] [] sampleOpen rfl rfl 0 0 7⟩

theorem renderList_abort_on_bad (x y : ℚ) (col : Color) (en : Entry) (hc : en.Closed = true)
    (hb : ∃ p ∈ en.Path, badSeg p) :
    ∀ (pre post : List Entry),
      renderList x y col (pre ++ en :: post) = renderList x y col (pre ++ [en]) ∧
      ((renderList x y col (pre ++ en :: post)).2).isSome = true
  | [], post => by
    obtain ⟨m, hm⟩ := renderEntry_bad x y col en hc hb
    constructor <;> simp [renderList, hm]
  | p :: pre, post => by
    have ih := renderList_abort_on_bad x y col en hc hb pre post
    cases hs : renderEntry x y col p with
    | error m => constructor <;> simp [renderList, hs]
    | ok o =>
      cases o with
      | none =>
        constructor
        · simpa [renderList, hs] using ih.1
        · simpa [renderList, hs] using ih.2
      | some d =>
        constructor
        · simp [renderList, hs, ih.1]
        · simpa [renderList, hs] using ih.2

/-- C5: a closed entry holding a segment with the sentinel operator or
a wrong argument count makes the replay abort: the whole `Render` call
surfaces the panic, and the entries after the violating one contribute
nothing (the result is the same as if the replay ended at the
violating entry). -/
theorem render_aborts_on_bad_segment (r : Rasterizer) (pre post : List Entry) (en : Entry)
    (hE : r.Entries = pre ++ en :: post) (hc : en.Closed = true)
    (hb : ∃ p ∈ en.Path, badSeg p) (x y : ℚ) (col : Color) :
    r.Render x y col = Rasterizer.Render { r with Entries := pre ++ [en] } x y col ∧
    ((r.Render x y col).2).isSome = true := by
  unfold Rasterizer.Render
  rw [hE]
  exact renderList_abort_on_bad x y col en hc hb pre post

theorem render_aborts_on_bad_segment_witness :
    ({ R := none, Entries := [sampleClosed, sampleBad, sampleClosed] } : Rasterizer).Entries =
        [sampleClosed] ++ sampleBad :: [sampleClosed] ∧
    sampleBad.Closed = true ∧
    (∃ p ∈ sampleBad.Path, badSeg p) ∧
    (Rasterizer.Render { R := none, Entries := [sampleClosed, sampleBad, sampleClosed] } 0 0 7 =
        Rasterizer.Render { R := none, Entries := [sampleClosed] ++ [sampleBad] } 0 0 7 ∧
      ((Rasterizer.Render { R := none, Entries := [sampleClosed, sampleBad, sampleClosed] }
          0 0 7).2).isSome = true) :=
  ⟨rfl, rfl, ⟨{ Op := .bogus, Args := [1, 2] }, by decide, Or.inr (Or.inr rfl)⟩,
    render_aborts_on_bad_segment { R := none, Entries := [sampleClosed, sampleBad, sampleClosed] }
      [sampleClosed] [sampleClosed] sampleBad rfl rfl
      ⟨{ Op := .bogus, Args := [1, 2] }, by decide, Or.inr (Or.inr rfl)⟩ 0 0 7⟩

/-- Spec-side localization of one segment, following the spec's words:
`local_x = 1 + original_x − minX`, `local_y = 1 + original_y − minY`,
applied to the matching operation with exactly 2 arguments for
move/line and 6 for cube; anything else is not a well-formed segment. -/
def specLocalSeg (mX mY : ℚ) (s : Segment) : Option VCmd :=
  match s.Op, s.Args with
  | .moveto, [x, y] => some (.vmove (1 + x - mX) (1 + y - mY))
  | .lineto, [x, y] => some (.vline (1 + x - mX) (1 + y - mY))
  | .cubeto, [a, b, c, d, e, f] =>
      some (.vcube (1 + a - mX) (1 + b - mY) (1 + c - mX) (1 + d - mY) (1 + e - mX) (1 + f - mY))
  | _, _ => none

theorem replaySeg_of_spec (mX mY : ℚ) (p : Segment) (c : VCmd)
    (h : specLocalSeg mX mY p = some c) : replaySeg mX mY p = Except.ok c := by
  obtain ⟨op, args⟩ := p
  unfold specLocalSeg at h
  split at h <;> simp_all [replaySeg, toLocal]

theorem replayPath_of_spec (mX mY : ℚ) :
    ∀ (ps : List Segment), (∀ p ∈ ps, (specLocalSeg mX mY p).isSome = true) →
      replayPath mX mY ps = Except.ok (ps.filterMap (specLocalSeg mX mY))
  | [], _ => rfl
  | p :: ps, h => by
    have hp := h p (List.mem_cons_self p ps)
    obtain ⟨c, hc⟩ := Option.isSome_iff_exists.mp hp
    have hrest := replayPath_of_spec mX mY ps fun q hq => h q (List.mem_cons_of_mem p hq)
    simp [replayPath, replaySeg_of_spec mX mY p c hc, hrest, hc]

/-- C2: for a closed, well-formed entry, one `Render` iteration
allocates a local converter of width `int(2 + MaxX - MinX)` and height
`int(2 + MaxY - MinY)`, replays every segment in original order at
local coordinates `1 + coordinate - box minimum`, force-closes the
local path, and composites at integer offset
`(int(x + MinX - 1), int(y + MinY - 1))`. -/
theorem render_entry_footprint (x y : ℚ) (col : Color) (en : Entry) (hc : en.Closed = true)
    (hwf : ∀ p ∈ en.Path, (specLocalSeg en.MinX en.MinY p).isSome = true) :
    renderEntry x y col en =
      Except.ok (some { wide := trunc (2 + en.MaxX - en.MinX),
                        high := trunc (2 + en.MaxY - en.MinY),
                        cmds := en.Path.filterMap (specLocalSeg en.MinX en.MinY) ++ [.vclose],
                        ix := trunc (x + en.MinX - 1),
                        iy := trunc (y + en.MinY - 1),
                        col := col }) := by
  simp [renderEntry, hc, replayPath_of_spec en.MinX en.MinY en.Path hwf]

theorem render_entry_footprint_witness :
    sampleClosed.Closed = true ∧
    (∀ p ∈ sampleClosed.Path,
      (specLocalSeg sampleClosed.MinX sampleClosed.MinY p).isSome = true) ∧
    renderEntry 3 4 7 sampleClosed =
      Except.ok (some { wide := trunc (2 + sampleClosed.MaxX - sampleClosed.MinX),
                        high := trunc (2 + sampleClosed.MaxY - sampleClosed.MinY),
                        cmds := sampleClosed.Path.filterMap
                            (specLocalSeg sampleClosed.MinX sampleClosed.MinY) ++ [.vclose],
                        ix := trunc (3 + sampleClosed.MinX - 1),
                        iy := trunc (4 + sampleClosed.MinY - 1),
                        col := 7 }) :=
  ⟨rfl, by decide, render_entry_footprint 3 4 7 sampleClosed rfl (by decide)⟩

theorem closePath_buffered_nonempty (r : Rasterizer) (hR : r.R = none) (hne : r.Entries ≠ []) :
    r.ClosePath =
      some { r with Entries := updateLast (fun en => { en with Closed := true }) r.Entries } := by
  unfold Rasterizer.ClosePath
  rw [hR]
  cases hE : r.Entries with
  | nil => exact absurd hE hne
  | cons q qs => rfl

/-- C7 counterexample: on a buffered recorder whose most recent entry
is already closed, ClosePath is not a contract violation — it succeeds
and leaves the recorder unchanged (it re-marks the closed entry
closed). -/
theorem closePath_closed_entry_not_fatal :
    Rasterizer.ClosePath { R := none, Entries := [sampleClosed] } =
      some { R := none, Entries := [sampleClosed] } := by
  decide

/-- C7 amended: in buffered mode, ClosePath with an empty entries
sequence (no entry ever started) is a contract violation (panic);
ClosePath with a nonempty entries sequence — even when the most recent
entry is already closed — succeeds, marking the last entry closed. -/
theorem closePath_no_open_entry (r : Rasterizer) (hR : r.R = none) :
    (r.Entries = [] → r.ClosePath = none) ∧
    (∀ es en, r.Entries = es ++ [en] →
      r.ClosePath = some { r with Entries := es ++ [{ en with Closed := true }] }) := by
  constructor
  · intro h
    unfold Rasterizer.ClosePath
    rw [hR, h]
  · intro es en h
    have hne : r.Entries ≠ [] := by
      rw [h]; simp
    rw [closePath_buffered_nonempty r hR hne, h, updateLast_concat]

theorem closePath_no_open_entry_witness :
    ({ R := none, Entries := [sampleOpen] } : Rasterizer).R = none ∧
    ({ R := none, Entries := [sampleOpen] } : Rasterizer).Entries = [] ++ [sampleOpen] ∧
    Rasterizer.ClosePath { R := none, Entries := [sampleOpen] } =
      some { R := none, Entries := [] ++ [{ sampleOpen with Closed := true }] } :=
  ⟨rfl, rfl,
    (closePath_no_open_entry { R := none, Entries := [sampleOpen] } rfl).2 [] sampleOpen rfl⟩

/-- The pair (lo, hi) is the exact min/max of the list vs: a bound for
every element, and attained. -/
def ExactRange (lo hi : ℚ) (vs : List ℚ) : Prop :=
  (∀ v ∈ vs, lo ≤ v ∧ v ≤ hi) ∧ lo ∈ vs ∧ hi ∈ vs

/-- The entry's bounding box is the exact axis-aligned min/max over the
coordinate pairs ps. -/
def ExactBox (en : Entry) (ps : List (ℚ × ℚ)) : Prop :=
  ExactRange en.MinX en.MaxX (ps.map Prod.fst) ∧ ExactRange en.MinY en.MaxY (ps.map Prod.snd)

/-- The value of the box minimum after one `extend` merge comparison. -/
def mergeLo (lo a : ℚ) : ℚ := if a < lo then a else lo

/-- The value of the box maximum after one `extend` merge comparison
(the else-if: the maximum is examined only when the minimum was not
lowered). -/
def mergeHi (lo hi a : ℚ) : ℚ := if a < lo then hi else if a > hi then a else hi

theorem mergeX_MinX (en : Entry) (a : ℚ) : (mergeX en a).MinX = mergeLo en.MinX a := by
  unfold mergeX mergeLo; split_ifs <;> rfl

theorem mergeX_MaxX (en : Entry) (a : ℚ) : (mergeX en a).MaxX = mergeHi en.MinX en.MaxX a := by
  unfold mergeX mergeHi; split_ifs <;> rfl

theorem mergeY_MinY (en : Entry) (a : ℚ) : (mergeY en a).MinY = mergeLo en.MinY a := by
  unfold mergeY mergeLo; split_ifs <;> rfl

theorem mergeY_MaxY (en : Entry) (a : ℚ) : (mergeY en a).MaxY = mergeHi en.MinY en.MaxY a := by
  unfold mergeY mergeHi; split_ifs <;> rfl

theorem mergeRange_exact (lo hi a : ℚ) (vs : List ℚ) (h : ExactRange lo hi vs) :
    ExactRange (mergeLo lo a) (mergeHi lo hi a) (vs ++ [a]) := by
  obtain ⟨hb, hlo, hhi⟩ := h
  have hlh : lo ≤ hi := (hb _ hlo).2
  unfold mergeLo mergeHi
  split_ifs with h1 h2
  · refine ⟨fun v hv => ?_, ?_, ?_⟩
    · rcases List.mem_append.mp hv with hv | hv
      · exact ⟨h1.le.trans (hb v hv).1, (hb v hv).2⟩
      · rw [List.mem_singleton] at hv
        subst hv
        exact ⟨le_refl _, h1.le.trans hlh⟩
    · exact List.mem_append_right _ (List.mem_singleton_self a)
    · exact List.mem_append_left _ hhi
  · refine ⟨fun v hv => ?_, ?_, ?_⟩
    · rcases List.mem_append.mp hv with hv | hv
      · exact ⟨(hb v hv).1, (hb v hv).2.trans h2.le⟩
      · rw [List.mem_singleton] at hv
        subst hv
        exact ⟨not_lt.mp h1, le_refl _⟩
    · exact List.mem_append_left _ hlo
    · exact List.mem_append_right _ (List.mem_singleton_self a)
  · refine ⟨fun v hv => ?_, List.mem_append_left _ hlo, List.mem_append_left _ hhi⟩
    rcases List.mem_append.mp hv with hv | hv
    · exact hb v hv
    · rw [List.mem_singleton] at hv
      subst hv
      exact ⟨not_lt.mp h1, not_lt.mp h2⟩

theorem mergeXY_exact (en : Entry) (a b : ℚ) (ps : List (ℚ × ℚ)) (h : ExactBox en ps) :
    ExactBox (mergeY (mergeX en a) b) (ps ++ [(a, b)]) := by
  obtain ⟨hX, hY⟩ := h
  constructor
  · rw [show (mergeY (mergeX en a) b).MinX = (mergeX en a).MinX from mergeY_MinX _ _,
      show (mergeY (mergeX en a) b).MaxX = (mergeX en a).MaxX from mergeY_MaxX _ _,
      mergeX_MinX, mergeX_MaxX]
    simpa [List.map_append] using mergeRange_exact en.MinX en.MaxX a (ps.map Prod.fst) hX
  · rw [mergeY_MinY, mergeY_MaxY, mergeX_MinY, mergeX_MaxY]
    simpa [List.map_append] using mergeRange_exact en.MinY en.MaxY b (ps.map Prod.snd) hY

theorem mergeLoop_exact :
    ∀ (args : List ℚ) (en : Entry) (ps : List (ℚ × ℚ)), ExactBox en ps →
      ExactBox (mergeLoop en args) (ps ++ listPairs args)
  | [], _, _, h => by simpa [mergeLoop, listPairs] using h
  | [_], _, _, h => by simpa [mergeLoop, listPairs] using h
  | a :: b :: rest, en, ps, h => by
    have h1 := mergeXY_exact en a b ps h
    have h2 := mergeLoop_exact rest (mergeY (mergeX en a) b) (ps ++ [(a, b)]) h1
    rw [show mergeLoop en (a :: b :: rest) = mergeLoop (mergeY (mergeX en a) b) rest from rfl,
      show listPairs (a :: b :: rest) = (a, b) :: listPairs rest from rfl]
    simpa [List.append_assoc] using h2

theorem extend_R (r : Rasterizer) (op : Operator) (a0 a1 : ℚ) (rest : List ℚ) :
    (r.extend op a0 a1 rest).R = r.R := by
  unfold Rasterizer.extend
  cases hR2 : r.R with
  | some v => exact hR2
  | none => split_ifs <;> rfl

theorem moveTo_buffered (r : Rasterizer) (hR : r.R = none) (x y : ℚ) :
    r.MoveTo x y = r.extend .moveto x y [] := by
  simp only [Rasterizer.MoveTo, extend_R, hR]

theorem lineTo_buffered (r : Rasterizer) (hR : r.R = none) (x y : ℚ) :
    r.LineTo x y = r.extend .lineto x y [] := by
  simp only [Rasterizer.LineTo, extend_R, hR]

theorem cubeTo_buffered (r : Rasterizer) (hR : r.R = none) (a b c d e f : ℚ) :
    r.CubeTo a b c d e f = r.extend .cubeto a b [c, d, e, f] := by
  simp only [Rasterizer.CubeTo, extend_R, hR]

/-- The fresh branch of `extend` (`n < 0 || r.Entries[n].Closed`): a
new entry is seeded with the first pair, the remaining pairs merged,
the segment appended, and the entry pushed at the end. -/
theorem extend_fresh (r : Rasterizer) (hR : r.R = none) (hlc : lastClosed r.Entries = true)
    (op : Operator) (a0 a1 : ℚ) (rest : List ℚ) :
    (r.extend op a0 a1 rest).Entries =
      r.Entries ++
        [{ mergeLoop { Closed := false, Path := [], MinX := a0, MaxX := a0,
                       MinY := a1, MaxY := a1 } rest with
           Path := (mergeLoop { Closed := false, Path := [], MinX := a0, MaxX := a0,
                                MinY := a1, MaxY := a1 } rest).Path ++
             [{ Op := op, Args := a0 :: a1 :: rest }] }] := by
  unfold Rasterizer.extend
  rw [hR, hlc]
  rfl

/-- The open branch of `extend`: all pairs are merged into the last
(open) entry and the segment appended to its path. -/
theorem extend_open (r : Rasterizer) (hR : r.R = none) (es : List Entry) (en : Entry)
    (hE : r.Entries = es ++ [en]) (hO : en.Closed = false)
    (op : Operator) (a0 a1 : ℚ) (rest : List ℚ) :
    (r.extend op a0 a1 rest).Entries =
      es ++ [{ mergeLoop en (a0 :: a1 :: rest) with
               Path := (mergeLoop en (a0 :: a1 :: rest)).Path ++
                 [{ Op := op, Args := a0 :: a1 :: rest }] }] := by
  have hlc : lastClosed r.Entries = false := by
    unfold lastClosed
    rw [hE, List.getLast?_concat]
    exact hO
  unfold Rasterizer.extend
  rw [hR, hlc]
  show updateLast _ r.Entries = _
  rw [hE, updateLast_concat]

/-- C8: in buffered mode a MoveTo issued while the most recent entry is
open does not start a new entry: the segment is appended to that entry
and its point merged into the entry's box (independent min/max per
axis); a new entry, with box initialized to the single point, is
started exactly when there is no entry yet or the last entry is
closed. -/
theorem moveTo_open_entry (r : Rasterizer) (hR : r.R = none) (x y : ℚ) :
    (∀ es en, r.Entries = es ++ [en] → en.Closed = false →
      en.MinX ≤ en.MaxX → en.MinY ≤ en.MaxY →
      ∃ e2, (r.MoveTo x y).Entries = es ++ [e2] ∧
        e2.Path = en.Path ++ [{ Op := .moveto, Args := [x, y] }] ∧
        e2.Closed = false ∧
        e2.MinX = min en.MinX x ∧ e2.MaxX = max en.MaxX x ∧
        e2.MinY = min en.MinY y ∧ e2.MaxY = max en.MaxY y) ∧
    (lastClosed r.Entries = true →
      (r.MoveTo x y).Entries =
        r.Entries ++ [{ Closed := false, Path := [{ Op := .moveto, Args := [x, y] }],
                        MinX := x, MaxX := x, MinY := y, MaxY := y }]) := by
  constructor
  · intro es en hE hO hx hy
    rw [moveTo_buffered r hR]
    refine ⟨_, extend_open r hR es en hE hO .moveto x y [], ?_, ?_, ?_, ?_, ?_, ?_⟩
    · rw [show mergeLoop en [x, y] = mergeY (mergeX en x) y from rfl, mergeY_Path, mergeX_Path]
    · rw [show mergeLoop en [x, y] = mergeY (mergeX en x) y from rfl, mergeY_Closed,
        mergeX_Closed, hO]
    · show (mergeY (mergeX en x) y).MinX = _
      rw [mergeY_MinX, mergeX_MinX]
      unfold mergeLo
      split_ifs with h1
      · exact (min_eq_right h1.le).symm
      · exact (min_eq_left (not_lt.mp h1)).symm
    · show (mergeY (mergeX en x) y).MaxX = _
      rw [mergeY_MaxX, mergeX_MaxX]
      unfold mergeHi
      split_ifs with h1 h2
      · exact (max_eq_left (h1.le.trans hx)).symm
      · exact (max_eq_right h2.le).symm
      · exact (max_eq_left (not_lt.mp h2)).symm
    · show (mergeY (mergeX en x) y).MinY = _
      rw [mergeY_MinY, mergeX_MinY]
      unfold mergeLo
      split_ifs with h1
      · exact (min_eq_right h1.le).symm
      · exact (min_eq_left (not_lt.mp h1)).symm
    · show (mergeY (mergeX en x) y).MaxY = _
      rw [mergeY_MaxY, mergeX_MinY, mergeX_MaxY]
      unfold mergeHi
      split_ifs with h1 h2
      · exact (max_eq_left (h1.le.trans hy)).symm
      · exact (max_eq_right h2.le).symm
      · exact (max_eq_left (not_lt.mp h2)).symm
  · intro hlc
    rw [moveTo_buffered r hR, extend_fresh r hR hlc .moveto x y]
    rfl

theorem moveTo_open_entry_witness :
    ({ R := none, Entries := [sampleOpen] } : Rasterizer).R = none ∧
    ({ R := none, Entries := [sampleOpen] } : Rasterizer).Entries = [] ++ [sampleOpen] ∧
    sampleOpen.Closed = false ∧
    sampleOpen.MinX ≤ sampleOpen.MaxX ∧
    sampleOpen.MinY ≤ sampleOpen.MaxY ∧
    (∃ e2, (Rasterizer.MoveTo { R := none, Entries := [sampleOpen] } 5 6).Entries =
        [] ++ [e2] ∧
      e2.Path = sampleOpen.Path ++ [{ Op := .moveto, Args := [5, 6] }] ∧
      e2.Closed = false ∧
      e2.MinX = min sampleOpen.MinX 5 ∧ e2.MaxX = max sampleOpen.MaxX 5 ∧
      e2.MinY = min sampleOpen.MinY 6 ∧ e2.MaxY = max sampleOpen.MaxY 6) ∧
    lastClosed ({ R := none, Entries := [sampleClosed] } : Rasterizer).Entries = true ∧
    (Rasterizer.MoveTo { R := none, Entries := [sampleClosed] } 5 6).Entries =
      [sampleClosed] ++ [{ Closed := false, Path := [{ Op := .moveto, Args := [5, 6] }],
                           MinX := 5, MaxX := 5, MinY := 6, MaxY := 6 }] :=
  ⟨rfl, rfl, rfl, by decide, by decide,
    (moveTo_open_entry { R := none, Entries := [sampleOpen] } rfl 5 6).1 [] sampleOpen rfl rfl
      (by decide) (by decide),
    by decide,
    (moveTo_open_entry { R := none, Entries := [sampleClosed] } rfl 5 6).2 (by decide)⟩

/-- C10: in buffered mode, a LineTo or CubeTo issued when there is no
open entry silently starts a new entry — no error, no leading MoveTo
segment: the entry's path is the single recorded segment, and its box
is seeded from the segment's first coordinate pair and then merged
with the remaining pairs, giving the exact min/max over the segment's
coordinate pairs. -/
theorem lineTo_cubeTo_fresh_entry (r : Rasterizer) (hR : r.R = none)
    (hlc : lastClosed r.Entries = true) (x y a b c d e f : ℚ) :
    (r.LineTo x y).Entries =
      r.Entries ++ [{ Closed := false, Path := [{ Op := .lineto, Args := [x, y] }],
                      MinX := x, MaxX := x, MinY := y, MaxY := y }] ∧
    (∃ e2, (r.CubeTo a b c d e f).Entries = r.Entries ++ [e2] ∧
      e2.Path = [{ Op := .cubeto, Args := [a, b, c, d, e, f] }] ∧
      e2.Closed = false ∧
      ExactBox e2 [(a, b), (c, d), (e, f)]) := by
  constructor
  · rw [lineTo_buffered r hR, extend_fresh r hR hlc .lineto x y]
    rfl
  · rw [cubeTo_buffered r hR, extend_fresh r hR hlc .cubeto a b]
    set e0 : Entry :=
      { Closed := false, Path := [], MinX := a, MaxX := a, MinY := b, MaxY := b } with he0
    refine ⟨_, rfl, ?_, ?_, ?_⟩
    · show (mergeLoop e0 [c, d, e, f]).Path ++ _ = _
      rw [mergeLoop_Path, he0]
      rfl
    · show (mergeLoop e0 [c, d, e, f]).Closed = false
      rw [mergeLoop_Closed, he0]
    · have hseed : ExactBox e0 [(a, b)] := by
        rw [he0]
        constructor
        · exact ⟨fun v hv => by simp at hv; simp [hv], by simp, by simp⟩
        · exact ⟨fun v hv => by simp at hv; simp [hv], by simp, by simp⟩
      have hm := mergeLoop_exact [c, d, e, f] e0 [(a, b)] hseed
      simpa [listPairs] using hm

theorem lineTo_cubeTo_fresh_entry_witness :
    ({ R := none, Entries := [] } : Rasterizer).R = none ∧
    lastClosed ({ R := none, Entries := [] } : Rasterizer).Entries = true ∧
    ((Rasterizer.LineTo { R := none, Entries := [] } 1 2).Entries =
        [] ++ [{ Closed := false, Path := [{ Op := .lineto, Args := [1, 2] }],
                 MinX := 1, MaxX := 1, MinY := 2, MaxY := 2 }] ∧
      ∃ e2, (Rasterizer.CubeTo { R := none, Entries := [] } 3 4 (-1) 7 2 0).Entries =
          [] ++ [e2] ∧
        e2.Path = [{ Op := .cubeto, Args := [3, 4, -1, 7, 2, 0] }] ∧
        e2.Closed = false ∧
        ExactBox e2 [(3, 4), (-1, 7), (2, 0)]) :=
  ⟨rfl, rfl,
    lineTo_cubeTo_fresh_entry { R := none, Entries := [] } rfl rfl 1 2 3 4 (-1) 7 2 0⟩

/-- A drawing command of the recording interface. -/
inductive Cmd
  | move (x y : ℚ)
  | line (x y : ℚ)
  | cube (a b c d e f : ℚ)
deriving DecidableEq, Repr

/-- Issue one command to the recorder. -/
def Cmd.apply (r : Rasterizer) : Cmd → Rasterizer
  | .move x y => r.MoveTo x y
  | .line x y => r.LineTo x y
  | .cube a b c d e f => r.CubeTo a b c d e f

/-- Issue a sequence of commands to the recorder, in order. -/
def applyCmds (r : Rasterizer) (cs : List Cmd) : Rasterizer := cs.foldl Cmd.apply r

/-- The coordinate pairs a command passes to the recorder, control
points included. -/
def Cmd.pairs : Cmd → List (ℚ × ℚ)
  | .move x y => [(x, y)]
  | .line x y => [(x, y)]
  | .cube a b c d e f => [(a, b), (c, d), (e, f)]

/-- Every coordinate pair passed by a command sequence, in order. -/
def cmdsPairs (cs : List Cmd) : List (ℚ × ℚ) := (cs.map Cmd.pairs).flatten

theorem cmdsPairs_concat (q : List Cmd) (c : Cmd) :
    cmdsPairs (q ++ [c]) = cmdsPairs q ++ c.pairs := by
  simp [cmdsPairs]

/-- The recorder is buffered and its last entry is open with a box that
is the exact min/max of the pairs ps. -/
def OpenInv (r : Rasterizer) (ps : List (ℚ × ℚ)) : Prop :=
  r.R = none ∧ ∃ es en, r.Entries = es ++ [en] ∧ en.Closed = false ∧ ExactBox en ps

theorem exactBox_seed (a0 a1 : ℚ) :
    ExactBox { Closed := false, Path := [], MinX := a0, MaxX := a0,
               MinY := a1, MaxY := a1 } [(a0, a1)] := by
  constructor
  · exact ⟨fun v hv => by simp at hv; simp [hv], by simp, by simp⟩
  · exact ⟨fun v hv => by simp at hv; simp [hv], by simp, by simp⟩

theorem extend_fresh_inv (r : Rasterizer) (hR : r.R = none)
    (hlc : lastClosed r.Entries = true) (op : Operator) (a0 a1 : ℚ) (rest : List ℚ) :
    OpenInv (r.extend op a0 a1 rest) ((a0, a1) :: listPairs rest) := by
  refine ⟨by rw [extend_R]; exact hR, r.Entries, _,
    extend_fresh r hR hlc op a0 a1 rest, ?_, ?_⟩
  · show (mergeLoop { Closed := false, Path := [], MinX := a0, MaxX := a0,
                      MinY := a1, MaxY := a1 } rest).Closed = false
    rw [mergeLoop_Closed]
  · have hm := mergeLoop_exact rest _ [(a0, a1)] (exactBox_seed a0 a1)
    exact hm

theorem extend_open_inv (r : Rasterizer) (ps : List (ℚ × ℚ)) (h : OpenInv r ps)
    (op : Operator) (a0 a1 : ℚ) (rest : List ℚ) :
    OpenInv (r.extend op a0 a1 rest) (ps ++ (a0, a1) :: listPairs rest) := by
  obtain ⟨hR, es, en, hE, hO, hbox⟩ := h
  refine ⟨by rw [extend_R]; exact hR, es, _,
    extend_open r hR es en hE hO op a0 a1 rest, ?_, ?_⟩
  · show (mergeLoop en (a0 :: a1 :: rest)).Closed = false
    rw [mergeLoop_Closed]
    exact hO
  · have hm := mergeLoop_exact (a0 :: a1 :: rest) en ps hbox
    exact hm

theorem cmd_fresh_inv (r : Rasterizer) (hR : r.R = none)
    (hlc : lastClosed r.Entries = true) (c : Cmd) :
    OpenInv (c.apply r) c.pairs := by
  cases c with
  | move x y =>
    rw [show Cmd.apply r (.move x y) = r.MoveTo x y from rfl, moveTo_buffered r hR]
    exact extend_fresh_inv r hR hlc .moveto x y []
  | line x y =>
    rw [show Cmd.apply r (.line x y) = r.LineTo x y from rfl, lineTo_buffered r hR]
    exact extend_fresh_inv r hR hlc .lineto x y []
  | cube a b c d e f =>
    rw [show Cmd.apply r (.cube a b c d e f) = r.CubeTo a b c d e f from rfl,
      cubeTo_buffered r hR]
    exact extend_fresh_inv r hR hlc .cubeto a b [c, d, e, f]

theorem cmd_open_inv (r : Rasterizer) (ps : List (ℚ × ℚ)) (h : OpenInv r ps) (c : Cmd) :
    OpenInv (c.apply r) (ps ++ c.pairs) := by
  have hR := h.1
  cases c with
  | move x y =>
    rw [show Cmd.apply r (.move x y) = r.MoveTo x y from rfl, moveTo_buffered r hR]
    exact extend_open_inv r ps h .moveto x y []
  | line x y =>
    rw [show Cmd.apply r (.line x y) = r.LineTo x y from rfl, lineTo_buffered r hR]
    exact extend_open_inv r ps h .lineto x y []
  | cube a b c d e f =>
    rw [show Cmd.apply r (.cube a b c d e f) = r.CubeTo a b c d e f from rfl,
      cubeTo_buffered r hR]
    exact extend_open_inv r ps h .cubeto a b [c, d, e, f]

theorem applyCmds_inv (r : Rasterizer) (hR : r.R = none)
    (hlc : lastClosed r.Entries = true) :
    ∀ (p : List Cmd), p ≠ [] → OpenInv (applyCmds r p) (cmdsPairs p) := by
  intro p
  induction p using List.reverseRecOn with
  | nil => intro h; exact absurd rfl h
  | append_singleton q c ih =>
    intro _
    have happ : applyCmds r (q ++ [c]) = Cmd.apply (applyCmds r q) c := by
      simp [applyCmds]
    rw [happ, cmdsPairs_concat]
    by_cases hq : q = []
    · subst hq
      have h1 := cmd_fresh_inv r hR hlc c
      simpa [applyCmds, cmdsPairs] using h1
    · exact cmd_open_inv (applyCmds r q) (cmdsPairs q) (ih hq) c

/-- C1: issuing any nonempty sequence of MoveTo/LineTo/CubeTo commands
into a buffered recorder with no open entry yields one entry whose
bounding box is, after every individual command (every nonempty
prefix), the exact axis-aligned min/max over every coordinate pair
passed so far, cubic control points included; the ClosePath bounding
the sequence closes that entry and leaves its box untouched. -/
theorem bbox_exact_every_mutation (r : Rasterizer) (hR : r.R = none)
    (hlc : lastClosed r.Entries = true) (cs : List Cmd) (hcs : cs ≠ []) :
    (∀ p q, cs = p ++ q → p ≠ [] →
      ∃ en, (applyCmds r p).Entries.getLast? = some en ∧ ExactBox en (cmdsPairs p)) ∧
    (∃ r2 en, (applyCmds r cs).ClosePath = some r2 ∧
      r2.Entries.getLast? = some en ∧ en.Closed = true ∧ ExactBox en (cmdsPairs cs)) := by
  constructor
  · intro p q hpq hp
    obtain ⟨hR2, es, en, hE, hO, hbox⟩ := applyCmds_inv r hR hlc p hp
    exact ⟨en, by rw [hE, List.getLast?_concat], hbox⟩
  · obtain ⟨hR2, es, en, hE, hO, hbox⟩ := applyCmds_inv r hR hlc cs hcs
    have hne : (applyCmds r cs).Entries ≠ [] := by rw [hE]; simp
    have hcp : (applyCmds r cs).ClosePath =
        some { applyCmds r cs with Entries := es ++ [{ en with Closed := true }] } := by
      rw [closePath_buffered_nonempty _ hR2 hne, hE, updateLast_concat]
    refine ⟨_, { en with Closed := true }, hcp, ?_, rfl, ?_⟩
    · show (es ++ [{ en with Closed := true }]).getLast? = _
      rw [List.getLast?_concat]
    · exact hbox

theorem bbox_exact_every_mutation_witness :
    ({ R := none, Entries := [] } : Rasterizer).R = none ∧
    lastClosed ({ R := none, Entries := [] } : Rasterizer).Entries = true ∧
    [Cmd.move 0 0, Cmd.cube 1 5 (-2) 3 4 (-1)] ≠ [] ∧
    ((∀ p q, [Cmd.move 0 0, Cmd.cube 1 5 (-2) 3 4 (-1)] = p ++ q → p ≠ [] →
      ∃ en, (applyCmds { R := none, Entries := [] } p).Entries.getLast? = some en ∧
        ExactBox en (cmdsPairs p)) ∧
    (∃ r2 en,
      (applyCmds { R := none, Entries := [] }
          [Cmd.move 0 0, Cmd.cube 1 5 (-2) 3 4 (-1)]).ClosePath = some r2 ∧
      r2.Entries.getLast? = some en ∧ en.Closed = true ∧
      ExactBox en (cmdsPairs [Cmd.move 0 0, Cmd.cube 1 5 (-2) 3 4 (-1)]))) :=
  ⟨rfl, rfl, by simp,
    bbox_exact_every_mutation { R := none, Entries := [] } rfl rfl
      [Cmd.move 0 0, Cmd.cube 1 5 (-2) 3 4 (-1)] (by simp)⟩

end Raster
